import Mathlib

/-!
Shallow embedding of the `deterministic` TypeScript library
(src/src/index.ts and the extended module src/unnamed/part_002).

Byte strings are modelled as `List Nat` (each entry a byte value).
IEEE-754 doubles are modelled by their 64-bit bit patterns (`Float64`),
with finiteness the usual "exponent field not all ones" condition.
The external cryptographic primitives (SHA-256, ed25519) are parameters:
the spec declares them out of scope, supplied by a trusted library.
-/

namespace Deterministic

/-- `DataView.setUint32(_, n, false)`: the four big-endian bytes of `n` mod 2^32. -/
def be32 (n : Nat) : List Nat :=
  [n / 16777216 % 256, n / 65536 % 256, n / 256 % 256, n % 256]

/-- `DataView.setFloat64(_, v, false)`: the eight big-endian bytes of the
64-bit pattern `n`. -/
def be64 (n : Nat) : List Nat :=
  [n / 72057594037927936 % 256, n / 281474976710656 % 256,
   n / 1099511627776 % 256, n / 4294967296 % 256,
   n / 16777216 % 256, n / 65536 % 256, n / 256 % 256, n % 256]

/-- A JavaScript number, identified with its IEEE-754 binary64 bit pattern. -/
structure Float64 where
  bits : Nat
  isLt : bits < 18446744073709551616
deriving DecidableEq

/-- `Number.isFinite`: the 11-bit exponent field is not all ones
(all-ones exponent encodes NaN and the infinities). -/
def Float64.isFinite (x : Float64) : Bool :=
  decide ((x.bits / 4503599627370496) % 2048 ≠ 2047)

/-- A rectangular or ragged matrix of numbers (`FloatMatrix`). -/
abbrev FloatMatrix : Type := List (List Float64)

/-- `assertMatrix`: every scalar must be a finite number.  The array-shape
checks of the source are enforced by the type. -/
def assertMatrix (matrix : FloatMatrix) : Bool :=
  matrix.all (fun row => row.all Float64.isFinite)

/-- `4 + Σ_rows (4 + 8·len)`: the `totalBytes` computed by `encodeFloatMatrix`
before allocating the `ArrayBuffer`. -/
def totalBytes (matrix : FloatMatrix) : Nat :=
  4 + (matrix.map (fun row => 4 + row.length * 8)).sum

/-- A `DataView` write: splice `bytes` into `buf` starting at `off`. -/
def writeBytes (buf : List Nat) (off : Nat) (bytes : List Nat) : List Nat :=
  buf.take off ++ bytes ++ buf.drop (off + bytes.length)

/-- The inner `for (const value of row)` loop of `encodeFloatMatrix`:
write each element as 8 big-endian bytes, advancing the offset. -/
def writeValues : List Nat → Nat → List Float64 → List Nat × Nat
  | buf, off, [] => (buf, off)
  | buf, off, v :: vs => writeValues (writeBytes buf off (be64 v.bits)) (off + 8) vs

/-- One row of `encodeFloatMatrix`: the 4-byte big-endian element count,
then the elements. -/
def writeRow (buf : List Nat) (off : Nat) (row : List Float64) : List Nat × Nat :=
  writeValues (writeBytes buf off (be32 row.length)) (off + 4) row

/-- The outer `for (const row of matrix)` loop of `encodeFloatMatrix`. -/
def writeRows : List Nat → Nat → FloatMatrix → List Nat
  | buf, _, [] => buf
  | buf, off, r :: rs => writeRows (writeRow buf off r).1 (writeRow buf off r).2 rs

/-- Error message of `assertMatrix` (a `TypeError` in the source). -/
def MATRIX_MSG : List Char := "matrix values must be finite numbers".toList

/-- `encodeFloatMatrix`: validate, allocate a zero buffer of `totalBytes`,
write the 4-byte big-endian row count, then each row. -/
def encodeFloatMatrix (matrix : FloatMatrix) : Except (List Char) (List Nat) :=
  if assertMatrix matrix then
    .ok (writeRows (writeBytes (List.replicate (totalBytes matrix) 0) 0
          (be32 matrix.length)) 4 matrix)
  else .error MATRIX_MSG

/-- The canonical flat layout: per-row element count then elements. -/
def encodeRow (row : List Float64) : List Nat :=
  be32 row.length ++ (row.map (fun v => be64 v.bits)).flatten

/-- The canonical flat layout of the whole matrix. -/
def canonicalBytes (matrix : FloatMatrix) : List Nat :=
  be32 matrix.length ++ (matrix.map encodeRow).flatten

@[simp] theorem be32_length (n : Nat) : (be32 n).length = 4 := rfl

@[simp] theorem be64_length (n : Nat) : (be64 n).length = 8 := rfl

theorem flatten_be64_length (row : List Float64) :
    ((row.map (fun v => be64 v.bits)).flatten).length = row.length * 8 := by
  induction row with
  | nil => rfl
  | cons v vs ih =>
    simp only [List.map_cons, List.flatten_cons, List.length_append, be64_length, ih,
      List.length_cons]
    omega

@[simp] theorem encodeRow_length (row : List Float64) :
    (encodeRow row).length = 4 + row.length * 8 := by
  unfold encodeRow
  rw [List.length_append, be32_length, flatten_be64_length]

/-- A sequential `DataView` write at the frontier of the initialized prefix. -/
theorem writeBytes_frontier (pre bs : List Nat) (k : Nat) :
    writeBytes (pre ++ List.replicate (bs.length + k) 0) pre.length bs =
      pre ++ bs ++ List.replicate k 0 := by
  unfold writeBytes
  rw [List.take_left, List.drop_append_eq_append_drop]
  simp [List.drop_replicate]

theorem writeValues_frontier (k : Nat) (vs : List Float64) (pre : List Nat) :
    writeValues (pre ++ List.replicate (vs.length * 8 + k) 0) pre.length vs =
      (pre ++ (vs.map (fun v => be64 v.bits)).flatten ++ List.replicate k 0,
       pre.length + vs.length * 8) := by
  induction vs generalizing pre with
  | nil => simp [writeValues]
  | cons v vs ih =>
    unfold writeValues
    have hlen : (v :: vs).length * 8 + k = (be64 v.bits).length + (vs.length * 8 + k) := by
      simp [Nat.succ_mul]
      omega
    rw [hlen, writeBytes_frontier]
    have h8 : pre.length + 8 = (pre ++ be64 v.bits).length := by simp
    rw [h8, ih (pre ++ be64 v.bits)]
    simp only [List.map_cons, List.flatten_cons, Prod.mk.injEq, List.length_append,
      be64_length, List.length_cons]
    constructor
    · simp [List.append_assoc]
    · omega

theorem writeRow_frontier (k : Nat) (row : List Float64) (pre : List Nat) :
    writeRow (pre ++ List.replicate ((4 + row.length * 8) + k) 0) pre.length row =
      (pre ++ encodeRow row ++ List.replicate k 0, pre.length + (4 + row.length * 8)) := by
  unfold writeRow
  have hlen : (4 + row.length * 8) + k = (be32 row.length).length + (row.length * 8 + k) := by
    simp
    omega
  rw [hlen, writeBytes_frontier]
  have h4 : pre.length + 4 = (pre ++ be32 row.length).length := by simp
  rw [h4, writeValues_frontier k row (pre ++ be32 row.length)]
  simp only [Prod.mk.injEq, List.length_append, be32_length]
  constructor
  · simp [encodeRow, List.append_assoc]
  · omega

theorem writeRows_frontier (rs : FloatMatrix) (pre : List Nat) :
    writeRows (pre ++ List.replicate ((rs.map (fun r => 4 + r.length * 8)).sum) 0)
        pre.length rs =
      pre ++ (rs.map encodeRow).flatten := by
  induction rs generalizing pre with
  | nil => simp [writeRows]
  | cons r rs ih =>
    unfold writeRows
    have hlen : ((r :: rs).map (fun t => 4 + t.length * 8)).sum =
        (4 + r.length * 8) + ((rs.map (fun t => 4 + t.length * 8)).sum) := by
      simp
    rw [hlen, writeRow_frontier]
    have hpre : pre.length + (4 + r.length * 8) = (pre ++ encodeRow r).length := by
      rw [List.length_append, encodeRow_length]
    rw [hpre, ih (pre ++ encodeRow r)]
    simp [List.append_assoc]

/-- The offset-threaded encoder produces exactly the flat canonical layout. -/
theorem encodeFloatMatrix_eq_canonical (matrix : FloatMatrix)
    (h : assertMatrix matrix = true) :
    encodeFloatMatrix matrix = .ok (canonicalBytes matrix) := by
  unfold encodeFloatMatrix
  rw [if_pos h]
  have h0 : writeBytes (List.replicate (totalBytes matrix) 0) 0 (be32 matrix.length) =
      be32 matrix.length ++
        List.replicate ((matrix.map (fun r => 4 + r.length * 8)).sum) 0 := by
    have := writeBytes_frontier ([] : List Nat) (be32 matrix.length)
        ((matrix.map (fun r => 4 + r.length * 8)).sum)
    simpa [totalBytes] using this
  rw [h0]
  have hw := writeRows_frontier matrix (be32 matrix.length)
  rw [be32_length] at hw
  rw [hw]
  rfl

/-- UTF-8 bytes of an ASCII string constant (all tags below are ASCII). -/
def asciiBytes (s : String) : List Nat := s.toList.map Char.toNat

def DOMAIN_TAG : List Nat := asciiBytes "clave:deterministic:v1"
def PURPOSE_PASSWORD : List Nat := asciiBytes "password"
def PURPOSE_PASSKEY : List Nat := asciiBytes "passkey"
def PURPOSE_SHARED_PASSKEY : List Nat := asciiBytes "shared-passkey"
def PURPOSE_SIGNATURE : List Nat := asciiBytes "signature"
def PURPOSE_SHARED_SIGNATURE : List Nat := asciiBytes "shared-signature"
def PURPOSE_HASH : List Nat := asciiBytes "hash"

/-- `deriveSeed`: hash the domain tag, purpose tag, salt, info, and canonical
matrix bytes (in that order).  `H` is the external SHA-256; salt and info are
the already-encoded bytes of the options (empty when absent). -/
def deriveSeed (H : List Nat → List Nat) (matrix : FloatMatrix)
    (purpose salt info : List Nat) : Except (List Char) (List Nat) :=
  (encodeFloatMatrix matrix).map
    (fun data => H (DOMAIN_TAG ++ purpose ++ salt ++ info ++ data))

def INDEX_MSG : List Char := "index must be a non-negative integer".toList
def TOTAL_MSG : List Char := "total must be an integer greater than 1".toList
def INDEX_LT_MSG : List Char := "index must be less than total".toList

/-- `deriveSharedSeed`: like `deriveSeed` but binds a 4-byte big-endian
`index` and `total` between the purpose tag and the salt, after range
validation. -/
def deriveSharedSeed (H : List Nat → List Nat) (matrix : FloatMatrix)
    (index total : Int) (purpose salt info : List Nat) :
    Except (List Char) (List Nat) :=
  if index < 0 then .error INDEX_MSG
  else if total ≤ 1 then .error TOTAL_MSG
  else if total ≤ index then .error INDEX_LT_MSG
  else
    (encodeFloatMatrix matrix).map
      (fun data => H (DOMAIN_TAG ++ purpose ++ be32 index.toNat ++ be32 total.toNat ++
        salt ++ info ++ data))

/-- `assertSharedMatrices` error message for the label `label`. -/
def sharedMsg (label : List Char) : List Char :=
  label ++ " requires at least two matrices".toList

/-- `expandBytes` loop body, with `remaining = length - offset` and `fuel`
bounding the number of hash blocks (the source loop runs until `remaining`
hits zero; one block is consumed per iteration). -/
def expandLoop (H : List Nat → List Nat) (seed : List Nat) :
    Nat → Nat → Nat → List Nat
  | _, 0, _ => []
  | 0, _ + 1, _ => []
  | fuel + 1, remaining + 1, counter =>
    (H (seed ++ be32 counter)).take
        (min (H (seed ++ be32 counter)).length (remaining + 1)) ++
      expandLoop H seed fuel
        (remaining + 1 - min (H (seed ++ be32 counter)).length (remaining + 1))
        (counter + 1)

/-- `expandBytes(seed, length)`: counter-mode expansion, counter starting at
zero.  `length` itself bounds the block count (each 32-byte block covers at
least one output byte). -/
def expandBytes (H : List Nat → List Nat) (seed : List Nat) (length : Nat) :
    List Nat :=
  expandLoop H seed length length 0

/-- Concatenation of the first `n` counter-mode blocks of `seed`, the counter
starting at `a`. -/
def ctrBlocks (H : List Nat → List Nat) (seed : List Nat) (a n : Nat) : List Nat :=
  ((List.range n).map (fun i => H (seed ++ be32 (a + i)))).flatten

/-- Regex class `[a-z]` (code points 97–122). -/
def isLowerChar (c : Char) : Bool :=
  decide (97 ≤ c.toNat) && decide (c.toNat ≤ 122)

/-- Regex class `[A-Z]` (code points 65–90). -/
def isUpperChar (c : Char) : Bool :=
  decide (65 ≤ c.toNat) && decide (c.toNat ≤ 90)

/-- Regex class `[0-9]` (code points 48–57). -/
def isDigitChar (c : Char) : Bool :=
  decide (48 ≤ c.toNat) && decide (c.toNat ≤ 57)

/-- Regex class `[^a-zA-Z0-9]`. -/
def isSymbolChar (c : Char) : Bool :=
  !(isLowerChar c || isUpperChar c || isDigitChar c)

/-- The `isValidPassword` closure: at least one character of each class. -/
def isValidPassword (pw : List Char) : Bool :=
  pw.any isLowerChar && pw.any isUpperChar && pw.any isDigitChar && pw.any isSymbolChar

/-- `alphabet[byte % alphabet.length]`. -/
def mapByte (alphabet : List Char) (b : Nat) : Char :=
  alphabet.getD (b % alphabet.length) ' '

/-- Rejection sampling over a byte pool: keep bytes `< maxB`, map each
survivor through the alphabet. -/
def acceptedChars (alphabet : List Char) (maxB : Nat) (bytes : List Nat) : List Char :=
  (bytes.filter (fun b => decide (b < maxB))).map (mapByte alphabet)

/-- One password attempt: the inner `while (password.length < length)` loop.
The pool is refilled from `H (seed ++ be32 counter)` with the counter
initialized to the attempt index; `fuel` bounds the number of refills (the
source loop has no bound and would spin forever on a stream with too few
accepted bytes; that case is `none`). -/
def attemptPassword (H : List Nat → List Nat) (seed : List Nat)
    (alphabet : List Char) (maxB len : Nat) :
    Nat → Nat → List Char → Option (List Char)
  | 0, _, _ => none
  | fuel + 1, counter, acc =>
    if len ≤ (acc ++ acceptedChars alphabet maxB (H (seed ++ be32 counter))).length
    then some ((acc ++ acceptedChars alphabet maxB (H (seed ++ be32 counter))).take len)
    else attemptPassword H seed alphabet maxB len fuel (counter + 1)
      (acc ++ acceptedChars alphabet maxB (H (seed ++ be32 counter)))

def EXHAUST_MSG : List Char :=
  "failed to generate a password meeting complexity rules".toList

/-- The `for (let attempt = 0; attempt < 1000; ...)` loop: `n` attempts
remain, the next attempt index is `a`.  Returns `none` when an inner loop
fails to complete within its fuel (nontermination of the source). -/
def passwordAttempts (H : List Nat → List Nat) (seed : List Nat)
    (alphabet : List Char) (maxB len fuel : Nat) :
    Nat → Nat → Option (Except (List Char) (List Char))
  | 0, _ => some (.error EXHAUST_MSG)
  | n + 1, a =>
    (attemptPassword H seed alphabet maxB len fuel a []).bind
      (fun pw =>
        if isValidPassword pw then some (.ok pw)
        else passwordAttempts H seed alphabet maxB len fuel n (a + 1))

def LENGTH_MSG : List Char := "password length must be between 8 and 16".toList
def ALPHA_LEN_MSG : List Char := "alphabet length must be between 2 and 256".toList
def ALPHA_CLASS_MSG : List Char :=
  "alphabet must include lowercase, uppercase, numeric, and symbol characters".toList

/-- `createPassword`: validate length and alphabet, derive the
`password`-purpose seed, then run up to 1000 rejection-sampled attempts with
`max = ⌊256 / |alphabet|⌋ · |alphabet|`.  `fuel` bounds each attempt's inner
loop; `none` marks the (source-nonterminating) fuel-exhaustion case. -/
def createPassword (H : List Nat → List Nat) (fuel : Nat) (matrix : FloatMatrix)
    (len : Nat) (alphabet : List Char) (salt info : List Nat) :
    Option (Except (List Char) (List Char)) :=
  if len < 8 ∨ 16 < len then some (.error LENGTH_MSG)
  else if alphabet.length < 2 ∨ 256 < alphabet.length then some (.error ALPHA_LEN_MSG)
  else if ¬(alphabet.any isLowerChar = true ∧ alphabet.any isUpperChar = true ∧
      alphabet.any isDigitChar = true ∧ alphabet.any isSymbolChar = true) then
    some (.error ALPHA_CLASS_MSG)
  else
    match deriveSeed H matrix PURPOSE_PASSWORD salt info with
    | .error e => some (.error e)
    | .ok seed =>
      passwordAttempts H seed alphabet (256 / alphabet.length * alphabet.length)
        len fuel 1000 0

/-- `bytesToHex` digit. -/
def hexDigit (n : Nat) : Char :=
  if n < 10 then Char.ofNat (48 + n) else Char.ofNat (87 + n)

/-- `bytesToHex`: two lowercase hex digits per byte. -/
def bytesToHex (bs : List Nat) : List Char :=
  (bs.map (fun b => [hexDigit (b / 16), hexDigit (b % 16)])).flatten

/-- The `Passkey` record (curve field is the constant string `ed25519`). -/
structure Passkey where
  privateKey : List Nat
  publicKey : List Nat
  privateKeyHex : List Char
  publicKeyHex : List Char

/-- `createPasskey`: the private key is the `passkey`-purpose seed, the
public key is ed25519 key derivation (`getPub`) applied to it. -/
def createPasskey (H getPub : List Nat → List Nat) (matrix : FloatMatrix)
    (salt info : List Nat) : Except (List Char) Passkey :=
  (deriveSeed H matrix PURPOSE_PASSKEY salt info).map
    (fun sk =>
      { privateKey := sk
        publicKey := getPub sk
        privateKeyHex := bytesToHex sk
        publicKeyHex := bytesToHex (getPub sk) })

/-- The `MessageSignature` record. -/
structure MessageSignature where
  signature : List Nat
  signatureHex : List Char
  publicKey : List Nat
  publicKeyHex : List Char

/-- The `SharedSignatures` record. -/
structure SharedSignatures where
  signatures : List MessageSignature

/-- The element-wise loop of `createSharedPasskey` (`matrices.map` with its
index), starting at index `i`. -/
def sharedPasskeys (H getPub : List Nat → List Nat) (total : Int)
    (salt info : List Nat) : Nat → List FloatMatrix → Except (List Char) (List Passkey)
  | _, [] => .ok []
  | i, m :: ms => do
    let sk ← deriveSharedSeed H m (Int.ofNat i) total PURPOSE_SHARED_PASSKEY salt info
    let rest ← sharedPasskeys H getPub total salt info (i + 1) ms
    .ok ({ privateKey := sk
           publicKey := getPub sk
           privateKeyHex := bytesToHex sk
           publicKeyHex := bytesToHex (getPub sk) } :: rest)

/-- `createSharedPasskey`: at least two matrices, then per-index shared
seeds. -/
def createSharedPasskey (H getPub : List Nat → List Nat)
    (matrices : List FloatMatrix) (salt info : List Nat) :
    Except (List Char) (List Passkey) :=
  if matrices.length < 2 then .error (sharedMsg "createSharedPasskey".toList)
  else sharedPasskeys H getPub (Int.ofNat matrices.length) salt info 0 matrices

/-- The element-wise loop of `createSharedSignature`; `sign msg sk` is the
external `ed25519.sign`. -/
def sharedSignatures (H getPub : List Nat → List Nat)
    (sign : List Nat → List Nat → List Nat) (message : List Nat) (total : Int)
    (salt info : List Nat) :
    Nat → List FloatMatrix → Except (List Char) (List MessageSignature)
  | _, [] => .ok []
  | i, m :: ms => do
    let sk ← deriveSharedSeed H m (Int.ofNat i) total PURPOSE_SHARED_SIGNATURE salt info
    let rest ← sharedSignatures H getPub sign message total salt info (i + 1) ms
    .ok ({ signature := sign message sk
           signatureHex := bytesToHex (sign message sk)
           publicKey := getPub sk
           publicKeyHex := bytesToHex (getPub sk) } :: rest)

/-- `createSharedSignature`: at least two matrices, then per-index shared
signatures. -/
def createSharedSignature (H getPub : List Nat → List Nat)
    (sign : List Nat → List Nat → List Nat) (matrices : List FloatMatrix)
    (message : List Nat) (salt info : List Nat) :
    Except (List Char) SharedSignatures :=
  if matrices.length < 2 then .error (sharedMsg "createSharedSignature".toList)
  else
    (sharedSignatures H getPub sign message (Int.ofNat matrices.length)
      salt info 0 matrices).map SharedSignatures.mk

/-- `verifySharedSignatures`: every entry verifies against its own embedded
public key (`verify sig msg pub` is the external `ed25519.verify`). -/
def verifySharedSignatures (verify : List Nat → List Nat → List Nat → Bool)
    (message : List Nat) (sigs : SharedSignatures) : Bool :=
  sigs.signatures.all (fun e => verify e.signature message e.publicKey)

def EXPAND_LEN_MSG : List Char := "length must be a positive integer".toList

/-- `expandMatrixBytes`: positive-length check, then counter-mode expansion
of the `hash`-purpose seed. -/
def expandMatrixBytes (H : List Nat → List Nat) (matrix : FloatMatrix)
    (length : Int) (salt info : List Nat) : Except (List Char) (List Nat) :=
  if length ≤ 0 then .error EXPAND_LEN_MSG
  else
    (deriveSeed H matrix PURPOSE_HASH salt info).map
      (fun seed => expandBytes H seed length.toNat)

/-! ### Lemmas about the rejection-sampled byte stream -/

theorem acceptedChars_append (A : List Char) (maxB : Nat) (xs ys : List Nat) :
    acceptedChars A maxB (xs ++ ys) =
      acceptedChars A maxB xs ++ acceptedChars A maxB ys := by
  simp [acceptedChars, List.filter_append]

theorem ctrBlocks_succ (H : List Nat → List Nat) (seed : List Nat) (a n : Nat) :
    ctrBlocks H seed a (n + 1) = H (seed ++ be32 a) ++ ctrBlocks H seed (a + 1) n := by
  unfold ctrBlocks
  rw [List.range_succ_eq_map]
  simp only [List.map_cons, List.flatten_cons, List.map_map, Nat.add_zero]
  congr 1
  apply congrArg List.flatten
  apply List.map_congr_left
  intro i _
  simp only [Function.comp_apply]
  have heq : a + Nat.succ i = a + 1 + i := by omega
  rw [heq]

theorem mapByte_mem (A : List Char) (hA : 0 < A.length) (b : Nat) : mapByte A b ∈ A := by
  unfold mapByte
  have hlt : b % A.length < A.length := Nat.mod_lt _ hA
  rw [List.getD_eq_getElem A ' ' hlt]
  exact List.getElem_mem hlt

theorem acceptedChars_subset (A : List Char) (hA : 0 < A.length) (maxB : Nat)
    (bs : List Nat) : ∀ c ∈ acceptedChars A maxB bs, c ∈ A := by
  intro c hc
  obtain ⟨b, _, hb⟩ := List.mem_map.mp hc
  exact hb ▸ mapByte_mem A hA b

/-- Any completed attempt is the first `len` characters of the
rejection-sampled, alphabet-mapped counter-mode byte stream started at the
attempt's counter. -/
theorem attemptPassword_stream (H : List Nat → List Nat) (seed : List Nat)
    (A : List Char) (maxB len : Nat) :
    ∀ fuel counter acc pw,
      attemptPassword H seed A maxB len fuel counter acc = some pw →
      ∃ n, n ≤ fuel ∧
        len ≤ (acc ++ acceptedChars A maxB (ctrBlocks H seed counter n)).length ∧
        pw = (acc ++ acceptedChars A maxB (ctrBlocks H seed counter n)).take len := by
  intro fuel
  induction fuel with
  | zero =>
    intro counter acc pw h
    exact absurd h (by simp [attemptPassword])
  | succ fuel ih =>
    intro counter acc pw h
    unfold attemptPassword at h
    by_cases hc : len ≤ (acc ++ acceptedChars A maxB (H (seed ++ be32 counter))).length
    · rw [if_pos hc] at h
      refine ⟨1, by omega, ?_, ?_⟩
      · rw [ctrBlocks_succ]
        simp only [ctrBlocks, List.range_zero, List.map_nil, List.flatten_nil,
          List.append_nil]
        exact hc
      · rw [ctrBlocks_succ]
        simp only [ctrBlocks, List.range_zero, List.map_nil, List.flatten_nil,
          List.append_nil]
        exact (Option.some.inj h).symm
    · rw [if_neg hc] at h
      obtain ⟨n, hn, hlen, hpw⟩ := ih (counter + 1)
        (acc ++ acceptedChars A maxB (H (seed ++ be32 counter))) pw h
      refine ⟨n + 1, by omega, ?_, ?_⟩
      · rw [ctrBlocks_succ, acceptedChars_append, ← List.append_assoc]
        exact hlen
      · rw [ctrBlocks_succ, acceptedChars_append, ← List.append_assoc]
        exact hpw

/-- A completed attempt has exactly `len` characters, all drawn from the
alphabet. -/
theorem attemptPassword_chars (H : List Nat → List Nat) (seed : List Nat)
    (A : List Char) (maxB len fuel counter : Nat) (pw : List Char)
    (hA : 0 < A.length)
    (h : attemptPassword H seed A maxB len fuel counter [] = some pw) :
    pw.length = len ∧ ∀ c ∈ pw, c ∈ A := by
  obtain ⟨n, _, hlen, hpw⟩ := attemptPassword_stream H seed A maxB len fuel counter [] pw h
  simp only [List.nil_append] at hlen hpw
  constructor
  · rw [hpw, List.length_take]
    omega
  · intro c hc
    rw [hpw] at hc
    have hc2 : c ∈ acceptedChars A maxB (ctrBlocks H seed counter n) :=
      (List.take_sublist _ _).subset hc
    exact acceptedChars_subset A hA maxB _ c hc2

/-! ### Lemmas about the 1000-attempt retry loop -/

/-- The retry loop returns `ok pw` exactly when some attempt below the
remaining budget completes with a valid password and every earlier attempt
completes with an invalid one. -/
theorem passwordAttempts_ok (H : List Nat → List Nat) (seed : List Nat)
    (A : List Char) (maxB len fuel : Nat) :
    ∀ n a pw,
      passwordAttempts H seed A maxB len fuel n a = some (.ok pw) ↔
      ∃ k, k < n ∧
        attemptPassword H seed A maxB len fuel (a + k) [] = some pw ∧
        isValidPassword pw = true ∧
        ∀ j, j < k → ∃ q, attemptPassword H seed A maxB len fuel (a + j) [] = some q ∧
          isValidPassword q = false := by
  intro n
  induction n with
  | zero =>
    intro a pw
    simp [passwordAttempts]
  | succ n ih =>
    intro a pw
    constructor
    · intro h
      unfold passwordAttempts at h
      cases hcand : attemptPassword H seed A maxB len fuel a [] with
      | none => rw [hcand] at h; exact absurd h (by simp [Option.bind])
      | some q =>
        rw [hcand] at h
        simp only [Option.bind] at h
        by_cases hv : isValidPassword q = true
        · rw [if_pos hv] at h
          have hq : q = pw := Except.ok.inj (Option.some.inj h)
          refine ⟨0, by omega, ?_, hq ▸ hv, ?_⟩
          · simpa [hq] using hcand
          · intro j hj
            omega
        · rw [if_neg hv] at h
          obtain ⟨k, hk, hcomp, hval, hprev⟩ := (ih (a + 1) pw).mp h
          refine ⟨k + 1, by omega, ?_, hval, ?_⟩
          · have heq : a + 1 + k = a + (k + 1) := by omega
            rwa [heq] at hcomp
          · intro j hj
            cases j with
            | zero =>
              exact ⟨q, by simpa using hcand, by simpa using hv⟩
            | succ j =>
              obtain ⟨q', hq', hv'⟩ := hprev j (by omega)
              have heq : a + 1 + j = a + (j + 1) := by omega
              exact ⟨q', by rwa [heq] at hq', hv'⟩
    · rintro ⟨k, hk, hcomp, hval, hprev⟩
      unfold passwordAttempts
      cases k with
      | zero =>
        simp only [Nat.add_zero] at hcomp
        rw [hcomp]
        simp only [Option.bind]
        rw [if_pos hval]
      | succ k =>
        obtain ⟨q, hq, hv⟩ := hprev 0 (by omega)
        simp only [Nat.add_zero] at hq
        rw [hq]
        simp only [Option.bind]
        rw [if_neg (by simp [hv])]
        refine (ih (a + 1) pw).mpr ⟨k, by omega, ?_, hval, ?_⟩
        · have heq : a + 1 + k = a + (k + 1) := by omega
          rwa [heq]
        · intro j hj
          obtain ⟨q', hq', hv'⟩ := hprev (j + 1) (by omega)
          have heq : a + 1 + j = a + (j + 1) := by omega
          exact ⟨q', by rwa [heq], hv'⟩

/-- If every attempt in the remaining budget completes with an invalid
candidate, the loop ends in the generation-exhausted error. -/
theorem passwordAttempts_exhausted (H : List Nat → List Nat) (seed : List Nat)
    (A : List Char) (maxB len fuel : Nat) :
    ∀ n a,
      (∀ k, k < n → ∃ q, attemptPassword H seed A maxB len fuel (a + k) [] = some q ∧
        isValidPassword q = false) →
      passwordAttempts H seed A maxB len fuel n a = some (.error EXHAUST_MSG) := by
  intro n
  induction n with
  | zero => intro a _; rfl
  | succ n ih =>
    intro a hall
    obtain ⟨q, hq, hv⟩ := hall 0 (by omega)
    simp only [Nat.add_zero] at hq
    unfold passwordAttempts
    rw [hq]
    simp only [Option.bind]
    rw [if_neg (by simp [hv])]
    refine ih (a + 1) ?_
    intro k hk
    obtain ⟨q', hq', hv'⟩ := hall (k + 1) (by omega)
    have : a + 1 + k = a + (k + 1) := by omega
    exact ⟨q', by rwa [this], hv'⟩

/-! ### Lemmas about counter-mode expansion -/

theorem ctrBlocks_length (H : List Nat → List Nat) (seed : List Nat)
    (hH : ∀ x, (H x).length = 32) :
    ∀ n a, (ctrBlocks H seed a n).length = 32 * n := by
  intro n
  induction n with
  | zero => intro a; rfl
  | succ n ih =>
    intro a
    rw [ctrBlocks_succ, List.length_append, hH, ih (a + 1)]
    omega

theorem expandLoop_spec (H : List Nat → List Nat) (seed : List Nat)
    (hH : ∀ x, (H x).length = 32) :
    ∀ fuel remaining counter n,
      remaining ≤ 32 * fuel → remaining ≤ 32 * n →
      expandLoop H seed fuel remaining counter =
        (ctrBlocks H seed counter n).take remaining := by
  intro fuel
  induction fuel with
  | zero =>
    intro remaining counter n h1 _
    have hr : remaining = 0 := by omega
    subst hr
    simp [expandLoop]
  | succ fuel ih =>
    intro remaining counter n h1 h2
    cases remaining with
    | zero => simp [expandLoop]
    | succ r =>
      cases n with
      | zero => omega
      | succ n =>
        unfold expandLoop
        rw [ctrBlocks_succ, List.take_append_eq_append_take]
        have hb := hH (seed ++ be32 counter)
        congr 1
        · rw [List.take_eq_take]
          omega
        · rw [hb, ih (r + 1 - min 32 (r + 1)) (counter + 1) n (by omega) (by omega)]
          congr 1
          omega

/-- `expandBytes` emits exactly `length` bytes: the first `length` bytes of
the counter-mode stream started at counter zero. -/
theorem expandBytes_spec (H : List Nat → List Nat) (seed : List Nat)
    (length : Nat) (hH : ∀ x, (H x).length = 32) :
    (expandBytes H seed length).length = length ∧
    ∀ n, length ≤ 32 * n →
      expandBytes H seed length = (ctrBlocks H seed 0 n).take length := by
  have hmain : ∀ n, length ≤ 32 * n →
      expandBytes H seed length = (ctrBlocks H seed 0 n).take length := by
    intro n hn
    exact expandLoop_spec H seed hH length length 0 n (by omega) hn
  refine ⟨?_, hmain⟩
  rw [hmain length (by omega), List.length_take, ctrBlocks_length H seed hH]
  omega

/-! ### Lemmas about alphabet character classes -/

theorem dedup_length_le (l : List Char) : l.dedup.length ≤ l.length :=
  l.dedup_sublist.length_le

theorem two_mem_dedup_length (l : List Char) (x y : Char)
    (hx : x ∈ l) (hy : y ∈ l) (hxy : x ≠ y) : 2 ≤ l.dedup.length := by
  have hx' : x ∈ l.dedup := List.mem_dedup.mpr hx
  have hy' : y ∈ l.dedup := List.mem_dedup.mpr hy
  cases hd : l.dedup with
  | nil => rw [hd] at hx'; exact absurd hx' (List.not_mem_nil x)
  | cons z t =>
    cases t with
    | nil =>
      rw [hd] at hx' hy'
      simp only [List.mem_singleton] at hx' hy'
      exact absurd (hx'.trans hy'.symm) hxy
    | cons w t => simp [hd]

/-- An alphabet passing all four class checks has at least two distinct
characters. -/
theorem classes_give_two_distinct (A : List Char)
    (h1 : A.any isLowerChar = true) (h3 : A.any isDigitChar = true) :
    2 ≤ A.dedup.length := by
  obtain ⟨c, hc, hcl⟩ := List.any_eq_true.mp h1
  obtain ⟨d, hd, hdd⟩ := List.any_eq_true.mp h3
  refine two_mem_dedup_length A c d hc hd ?_
  intro hcd
  subst hcd
  unfold isLowerChar at hcl
  unfold isDigitChar at hdd
  simp only [Bool.and_eq_true, decide_eq_true_eq] at hcl hdd
  omega

/-! ### Concrete instances used by witnesses -/

/-- Bit pattern of `1.0` (finite). -/
def oneF64 : Float64 := ⟨4607182418800017408, by decide⟩

/-- Bit pattern of a quiet NaN (non-finite). -/
def nanF64 : Float64 := ⟨9221120237041090560, by decide⟩

/-- A 32-byte-digest stand-in hash returning all zeros. -/
def constHash : List Nat → List Nat := fun _ => List.replicate 32 0

/-- A 32-byte-digest stand-in hash cycling bytes 0,1,2,3. -/
def mixHash : List Nat → List Nat := fun _ =>
  [0, 1, 2, 3, 0, 1, 2, 3, 0, 1, 2, 3, 0, 1, 2, 3,
   0, 1, 2, 3, 0, 1, 2, 3, 0, 1, 2, 3, 0, 1, 2, 3]

/-- A stand-in public-key derivation. -/
def idPub : List Nat → List Nat := fun bs => bs

/-- A stand-in signing function. -/
def constSign : List Nat → List Nat → List Nat := fun _ _ => []

/-- A four-character alphabet covering all four classes. -/
def smallAlpha : List Char := ['a', 'A', '0', '!']

/-! ### Claims -/

/-- C1: canonicalization of a matrix of finite numbers yields exactly the
4-byte big-endian row count, then per row a 4-byte big-endian element count
followed by each element's 8 big-endian IEEE-754 bytes; empty matrices and
empty rows encode to the zero-length-prefixed forms; a matrix with any
non-finite scalar fails with the validation error, and seed derivation then
fails identically for every hash function, i.e. before any hashing. -/
theorem claim1_canonical_encoding (m : FloatMatrix) :
    ((∀ row ∈ m, ∀ v ∈ row, v.isFinite = true) →
      encodeFloatMatrix m = .ok (canonicalBytes m)) ∧
    ((∃ row ∈ m, ∃ v ∈ row, v.isFinite = false) →
      encodeFloatMatrix m = .error MATRIX_MSG ∧
      ∀ H purpose salt info, deriveSeed H m purpose salt info = .error MATRIX_MSG) ∧
    encodeFloatMatrix [] = .ok [0, 0, 0, 0] ∧
    encodeFloatMatrix [[]] = .ok [0, 0, 0, 1, 0, 0, 0, 0] := by
  refine ⟨?_, ?_, rfl, rfl⟩
  · intro h
    exact encodeFloatMatrix_eq_canonical m
      (by simpa [assertMatrix, List.all_eq_true] using h)
  · rintro ⟨row, hrow, v, hv, hvf⟩
    have hbad : ¬ assertMatrix m = true := by
      intro hgood
      have := (List.all_eq_true.mp ((List.all_eq_true.mp hgood) row hrow)) v hv
      rw [hvf] at this
      exact Bool.false_ne_true this
    have henc : encodeFloatMatrix m = .error MATRIX_MSG := by
      unfold encodeFloatMatrix
      rw [if_neg hbad]
    refine ⟨henc, ?_⟩
    intro H purpose salt info
    unfold deriveSeed
    rw [henc]
    rfl

theorem claim1_witness :
    (encodeFloatMatrix [[oneF64]] = .ok (canonicalBytes [[oneF64]])) ∧
    (encodeFloatMatrix [[nanF64]] = .error MATRIX_MSG ∧
      ∀ H purpose salt info,
        deriveSeed H [[nanF64]] purpose salt info = .error MATRIX_MSG) :=
  ⟨(claim1_canonical_encoding [[oneF64]]).1 (by decide),
   (claim1_canonical_encoding [[nanF64]]).2.1 ⟨[nanF64], by decide, nanF64, by decide, by decide⟩⟩

/-- C2: the derived seed is one application of the hash to the domain tag,
purpose tag, salt, info, and canonical matrix bytes, in this exact order;
when the hash has a 32-byte digest, so does the seed. -/
theorem claim2_seed_construction (H : List Nat → List Nat) (matrix : FloatMatrix)
    (purpose salt info : List Nat)
    (hH : ∀ x, (H x).length = 32)
    (hm : assertMatrix matrix = true) :
    deriveSeed H matrix purpose salt info =
      .ok (H (DOMAIN_TAG ++ purpose ++ salt ++ info ++ canonicalBytes matrix)) ∧
    ∀ s, deriveSeed H matrix purpose salt info = .ok s → s.length = 32 := by
  have henc := encodeFloatMatrix_eq_canonical matrix hm
  have hfst : deriveSeed H matrix purpose salt info =
      .ok (H (DOMAIN_TAG ++ purpose ++ salt ++ info ++ canonicalBytes matrix)) := by
    unfold deriveSeed
    rw [henc]
    rfl
  refine ⟨hfst, ?_⟩
  intro s hs
  rw [hfst] at hs
  have := Except.ok.inj hs
  rw [← this]
  exact hH _

theorem claim2_witness :
    (∀ x, (constHash x).length = 32) ∧
    deriveSeed constHash [[oneF64]] PURPOSE_PASSKEY [] [] =
      .ok (constHash (DOMAIN_TAG ++ PURPOSE_PASSKEY ++ [] ++ [] ++
        canonicalBytes [[oneF64]])) ∧
    ∀ s, deriveSeed constHash [[oneF64]] PURPOSE_PASSKEY [] [] = .ok s →
      s.length = 32 :=
  ⟨fun _ => rfl,
   (claim2_seed_construction constHash [[oneF64]] PURPOSE_PASSKEY [] []
     (fun _ => rfl) (by decide)).1,
   (claim2_seed_construction constHash [[oneF64]] PURPOSE_PASSKEY [] []
     (fun _ => rfl) (by decide)).2⟩

/-- C6: shared seed derivation binds the 4-byte big-endian index and total
between the purpose tag and the salt; it fails with a range error when
`index < 0`, `total ≤ 1`, or `index ≥ total` independently of the hash and
matrix; and the shared creation operations fail with their range error on
fewer than two matrices. -/
theorem claim6_shared_binding (H getPub : List Nat → List Nat)
    (sign : List Nat → List Nat → List Nat) (matrix : FloatMatrix)
    (index total : Int) (purpose salt info message : List Nat) :
    (0 ≤ index → 1 < total → index < total → assertMatrix matrix = true →
      deriveSharedSeed H matrix index total purpose salt info =
        .ok (H (DOMAIN_TAG ++ purpose ++ be32 index.toNat ++ be32 total.toNat ++
          salt ++ info ++ canonicalBytes matrix))) ∧
    ((index < 0 ∨ total ≤ 1 ∨ total ≤ index) →
      ∃ msg, msg ∈ [INDEX_MSG, TOTAL_MSG, INDEX_LT_MSG] ∧
        ∀ H' (matrix' : FloatMatrix),
          deriveSharedSeed H' matrix' index total purpose salt info = .error msg) ∧
    (∀ matrices : List FloatMatrix, matrices.length < 2 →
      createSharedPasskey H getPub matrices salt info =
        .error (sharedMsg "createSharedPasskey".toList) ∧
      createSharedSignature H getPub sign matrices message salt info =
        .error (sharedMsg "createSharedSignature".toList)) := by
  refine ⟨?_, ?_, ?_⟩
  · intro h0 h1 h2 hm
    unfold deriveSharedSeed
    rw [if_neg (by omega), if_neg (by omega), if_neg (by omega),
      encodeFloatMatrix_eq_canonical matrix hm]
    rfl
  · intro hbad
    by_cases hi : index < 0
    · refine ⟨INDEX_MSG, by simp, ?_⟩
      intro H' matrix'
      unfold deriveSharedSeed
      rw [if_pos hi]
    · by_cases ht : total ≤ 1
      · refine ⟨TOTAL_MSG, by simp, ?_⟩
        intro H' matrix'
        unfold deriveSharedSeed
        rw [if_neg hi, if_pos ht]
      · have hlt : total ≤ index := by
          rcases hbad with h | h | h
          · exact absurd h hi
          · exact absurd h ht
          · exact h
        refine ⟨INDEX_LT_MSG, by simp, ?_⟩
        intro H' matrix'
        unfold deriveSharedSeed
        rw [if_neg hi, if_neg ht, if_pos hlt]
  · intro matrices hlt
    constructor
    · unfold createSharedPasskey
      rw [if_pos hlt]
    · unfold createSharedSignature
      rw [if_pos hlt]

theorem claim6_witness :
    deriveSharedSeed constHash [] 0 2 PURPOSE_SHARED_PASSKEY [] [] =
      .ok (constHash (DOMAIN_TAG ++ PURPOSE_SHARED_PASSKEY ++ be32 (0 : Int).toNat ++
        be32 (2 : Int).toNat ++ [] ++ [] ++ canonicalBytes [])) ∧
    (∃ msg, msg ∈ [INDEX_MSG, TOTAL_MSG, INDEX_LT_MSG] ∧
      ∀ H' (matrix' : FloatMatrix),
        deriveSharedSeed H' matrix' 2 2 PURPOSE_SHARED_PASSKEY [] [] = .error msg) ∧
    (createSharedPasskey constHash idPub [] [] [] =
        .error (sharedMsg "createSharedPasskey".toList) ∧
      createSharedSignature constHash idPub constSign [] [] [] [] =
        .error (sharedMsg "createSharedSignature".toList)) :=
  ⟨(claim6_shared_binding constHash idPub constSign [] 0 2
      PURPOSE_SHARED_PASSKEY [] [] []).1 (by omega) (by omega) (by omega) rfl,
   (claim6_shared_binding constHash idPub constSign [] 2 2
      PURPOSE_SHARED_PASSKEY [] [] []).2.1 (by omega),
   (claim6_shared_binding constHash idPub constSign [] 0 2
      PURPOSE_SHARED_PASSKEY [] [] []).2.2 [] (by decide)⟩

/-- C7: counter-mode expansion produces exactly `length` bytes — the prefix
of the concatenated digests of seed‖counter with the 32-bit big-endian
counter starting at zero — for any non-negative `length`; at the public
interface, `expandMatrixBytes` fails with a range error unless the requested
length is positive. -/
theorem claim7_expansion (H : List Nat → List Nat) (seed : List Nat) (len : Nat)
    (hH : ∀ x, (H x).length = 32) :
    (expandBytes H seed len).length = len ∧
    (∀ n, len ≤ 32 * n →
      expandBytes H seed len = (ctrBlocks H seed 0 n).take len) ∧
    (∀ (matrix : FloatMatrix) (L : Int) salt info, L ≤ 0 →
      expandMatrixBytes H matrix L salt info = .error EXPAND_LEN_MSG) ∧
    (∀ (matrix : FloatMatrix) (L : Int) salt info s, 0 < L →
      deriveSeed H matrix PURPOSE_HASH salt info = .ok s →
      expandMatrixBytes H matrix L salt info = .ok (expandBytes H s L.toNat)) := by
  obtain ⟨hlen, hstream⟩ := expandBytes_spec H seed len hH
  refine ⟨hlen, hstream, ?_, ?_⟩
  · intro matrix L salt info hL
    unfold expandMatrixBytes
    rw [if_pos hL]
  · intro matrix L salt info s hL hs
    unfold expandMatrixBytes
    rw [if_neg (by omega), hs]
    rfl

theorem claim7_witness :
    (expandBytes constHash [] 5).length = 5 ∧
    expandBytes constHash [] 5 = (ctrBlocks constHash [] 0 1).take 5 ∧
    expandMatrixBytes constHash [] 0 [] [] = .error EXPAND_LEN_MSG ∧
    expandMatrixBytes constHash [] 5 [] [] =
      .ok (expandBytes constHash (List.replicate 32 0) (5 : Int).toNat) :=
  ⟨(claim7_expansion constHash [] 5 (fun _ => rfl)).1,
   (claim7_expansion constHash [] 5 (fun _ => rfl)).2.1 1 (by omega),
   (claim7_expansion constHash [] 5 (fun _ => rfl)).2.2.1 [] 0 [] [] (by omega),
   (claim7_expansion constHash [] 5 (fun _ => rfl)).2.2.2 [] 5 [] []
     (List.replicate 32 0) (by omega) rfl⟩

/-- C8: the passkey's private key is exactly the `passkey`-purpose seed, it
is 32 bytes long (the ed25519 private-key length), and the public key is the
deterministic key derivation applied to that private key. -/
theorem claim8_passkey (H getPub : List Nat → List Nat) (matrix : FloatMatrix)
    (salt info : List Nat) (hH : ∀ x, (H x).length = 32)
    (hm : assertMatrix matrix = true) :
    ∃ pk, createPasskey H getPub matrix salt info = .ok pk ∧
      deriveSeed H matrix PURPOSE_PASSKEY salt info = .ok pk.privateKey ∧
      pk.privateKey.length = 32 ∧
      pk.publicKey = getPub pk.privateKey := by
  have henc := encodeFloatMatrix_eq_canonical matrix hm
  have hseed : deriveSeed H matrix PURPOSE_PASSKEY salt info =
      .ok (H (DOMAIN_TAG ++ PURPOSE_PASSKEY ++ salt ++ info ++ canonicalBytes matrix)) := by
    unfold deriveSeed
    rw [henc]
    rfl
  refine ⟨⟨H (DOMAIN_TAG ++ PURPOSE_PASSKEY ++ salt ++ info ++ canonicalBytes matrix),
      getPub (H (DOMAIN_TAG ++ PURPOSE_PASSKEY ++ salt ++ info ++ canonicalBytes matrix)),
      bytesToHex (H (DOMAIN_TAG ++ PURPOSE_PASSKEY ++ salt ++ info ++ canonicalBytes matrix)),
      bytesToHex (getPub (H (DOMAIN_TAG ++ PURPOSE_PASSKEY ++ salt ++ info ++
        canonicalBytes matrix)))⟩, ?_, hseed, hH _, rfl⟩
  unfold createPasskey
  rw [hseed]
  rfl

theorem claim8_witness :
    ∃ pk, createPasskey constHash idPub [[oneF64]] [] [] = .ok pk ∧
      deriveSeed constHash [[oneF64]] PURPOSE_PASSKEY [] [] = .ok pk.privateKey ∧
      pk.privateKey.length = 32 ∧
      pk.publicKey = idPub pk.privateKey :=
  claim8_passkey constHash idPub [[oneF64]] [] [] (fun _ => rfl) (by decide)

/-- C9: salt and info enter the hash input without length framing, so the
derived seed depends only on their concatenation: salt `s` with info `i`
equals salt `s ++ i` with empty info and equals empty salt with info
`s ++ i`. -/
theorem claim9_salt_info_concat (H : List Nat → List Nat) (matrix : FloatMatrix)
    (purpose s i : List Nat) :
    deriveSeed H matrix purpose s i = deriveSeed H matrix purpose (s ++ i) [] ∧
    deriveSeed H matrix purpose s i = deriveSeed H matrix purpose [] (s ++ i) := by
  unfold deriveSeed
  cases encodeFloatMatrix matrix with
  | error e => exact ⟨rfl, rfl⟩
  | ok data =>
    constructor <;> simp [List.append_assoc]

/-- C10: verifying a shared signature set imposes no minimum count — the
empty set verifies to `true` — while the shared creation operation rejects
collections of fewer than two matrices. -/
theorem claim10_verify_empty (verify : List Nat → List Nat → List Nat → Bool)
    (message : List Nat) (H getPub : List Nat → List Nat)
    (sign : List Nat → List Nat → List Nat) (salt info : List Nat)
    (m : FloatMatrix) :
    verifySharedSignatures verify message ⟨[]⟩ = true ∧
    createSharedSignature H getPub sign [] message salt info =
      .error (sharedMsg "createSharedSignature".toList) ∧
    createSharedSignature H getPub sign [m] message salt info =
      .error (sharedMsg "createSharedSignature".toList) := by
  refine ⟨rfl, rfl, ?_⟩
  unfold createSharedSignature
  rw [if_pos (by simp)]

/-- The seed produced by `mixHash` for any input. -/
def mixSeed : List Nat := mixHash []

/-- C3: with max = ⌊256/|alphabet|⌋·|alphabet|, each attempt's candidate is
the first `length` characters obtained by filtering the byte stream
hash(seed‖BE32(a)), hash(seed‖BE32(a+1)), … — the attempt index `a`
initializes the 32-bit big-endian block counter — to bytes below max and
mapping each accepted byte to alphabet[byte mod |alphabet|]; and
createPassword returns exactly the first completed candidate satisfying all
four character classes, every earlier attempt completing with an invalid
one. -/
theorem claim3_password_algorithm (H : List Nat → List Nat) (fuel : Nat)
    (matrix : FloatMatrix) (len : Nat) (A : List Char) (salt info seed : List Nat)
    (maxB : Nat)
    (h8 : 8 ≤ len) (h16 : len ≤ 16)
    (hA2 : 2 ≤ A.length) (hA256 : A.length ≤ 256)
    (hcls : A.any isLowerChar = true ∧ A.any isUpperChar = true ∧
      A.any isDigitChar = true ∧ A.any isSymbolChar = true)
    (hseed : deriveSeed H matrix PURPOSE_PASSWORD salt info = .ok seed)
    (hmax : maxB = 256 / A.length * A.length) :
    (∀ a pw, attemptPassword H seed A maxB len fuel a [] = some pw →
      ∃ n, n ≤ fuel ∧
        len ≤ (acceptedChars A maxB (ctrBlocks H seed a n)).length ∧
        pw = (acceptedChars A maxB (ctrBlocks H seed a n)).take len) ∧
    (∀ pw, createPassword H fuel matrix len A salt info = some (.ok pw) ↔
      ∃ k, k < 1000 ∧ attemptPassword H seed A maxB len fuel k [] = some pw ∧
        isValidPassword pw = true ∧
        ∀ j, j < k → ∃ q, attemptPassword H seed A maxB len fuel j [] = some q ∧
          isValidPassword q = false) := by
  subst hmax
  constructor
  · intro a pw hpw
    obtain ⟨n, hn, hl, hp⟩ :=
      attemptPassword_stream H seed A _ len fuel a [] pw hpw
    simp only [List.nil_append] at hl hp
    exact ⟨n, hn, hl, hp⟩
  · intro pw
    unfold createPassword
    rw [if_neg (by omega), if_neg (by omega), if_neg (not_not_intro hcls), hseed]
    have hiff := passwordAttempts_ok H seed A (256 / A.length * A.length)
      len fuel 1000 0 pw
    simpa using hiff

theorem claim3_witness :
    (∀ a pw, attemptPassword mixHash mixSeed smallAlpha 256 8 1 a [] = some pw →
      ∃ n, n ≤ 1 ∧
        8 ≤ (acceptedChars smallAlpha 256 (ctrBlocks mixHash mixSeed a n)).length ∧
        pw = (acceptedChars smallAlpha 256 (ctrBlocks mixHash mixSeed a n)).take 8) ∧
    (∀ pw, createPassword mixHash 1 [] 8 smallAlpha [] [] = some (.ok pw) ↔
      ∃ k, k < 1000 ∧ attemptPassword mixHash mixSeed smallAlpha 256 8 1 k [] = some pw ∧
        isValidPassword pw = true ∧
        ∀ j, j < k → ∃ q, attemptPassword mixHash mixSeed smallAlpha 256 8 1 j [] = some q ∧
          isValidPassword q = false) :=
  claim3_password_algorithm mixHash 1 [] 8 smallAlpha [] [] mixSeed 256
    (by omega) (by omega) (by decide) (by decide) (by decide) rfl (by decide)

/-- C4: every password returned by createPassword has exactly the requested
length, draws every character from the alphabet, and contains at least one
lowercase letter, one uppercase letter, one digit and one symbol. -/
theorem claim4_password_policy (H : List Nat → List Nat) (fuel : Nat)
    (matrix : FloatMatrix) (len : Nat) (A : List Char) (salt info : List Nat)
    (pw : List Char)
    (h : createPassword H fuel matrix len A salt info = some (.ok pw)) :
    pw.length = len ∧ (∀ c ∈ pw, c ∈ A) ∧
    pw.any isLowerChar = true ∧ pw.any isUpperChar = true ∧
    pw.any isDigitChar = true ∧ pw.any isSymbolChar = true := by
  unfold createPassword at h
  by_cases h1 : len < 8 ∨ 16 < len
  · rw [if_pos h1] at h
    simp at h
  · rw [if_neg h1] at h
    by_cases h2 : A.length < 2 ∨ 256 < A.length
    · rw [if_pos h2] at h
      simp at h
    · rw [if_neg h2] at h
      by_cases h3 : ¬(A.any isLowerChar = true ∧ A.any isUpperChar = true ∧
          A.any isDigitChar = true ∧ A.any isSymbolChar = true)
      · rw [if_pos h3] at h
        simp at h
      · rw [if_neg h3] at h
        cases hds : deriveSeed H matrix PURPOSE_PASSWORD salt info with
        | error e =>
          rw [hds] at h
          simp at h
        | ok seed =>
          rw [hds] at h
          obtain ⟨k, hk, hcand, hval, -⟩ :=
            (passwordAttempts_ok H seed A (256 / A.length * A.length)
              len fuel 1000 0 pw).mp h
          have hA : 0 < A.length := by
            push_neg at h2
            omega
          obtain ⟨hlen, hmem⟩ := attemptPassword_chars H seed A
            (256 / A.length * A.length) len fuel (0 + k) pw hA hcand
          unfold isValidPassword at hval
          simp only [Bool.and_eq_true] at hval
          exact ⟨hlen, hmem, hval.1.1.1, hval.1.1.2, hval.1.2, hval.2⟩

theorem claim4_witness :
    createPassword mixHash 1 [] 8 smallAlpha [] [] =
      some (.ok ['a', 'A', '0', '!', 'a', 'A', '0', '!']) ∧
    (['a', 'A', '0', '!', 'a', 'A', '0', '!'] : List Char).length = 8 ∧
    (∀ c ∈ (['a', 'A', '0', '!', 'a', 'A', '0', '!'] : List Char), c ∈ smallAlpha) ∧
    (['a', 'A', '0', '!', 'a', 'A', '0', '!'] : List Char).any isLowerChar = true ∧
    (['a', 'A', '0', '!', 'a', 'A', '0', '!'] : List Char).any isUpperChar = true ∧
    (['a', 'A', '0', '!', 'a', 'A', '0', '!'] : List Char).any isDigitChar = true ∧
    (['a', 'A', '0', '!', 'a', 'A', '0', '!'] : List Char).any isSymbolChar = true :=
  ⟨rfl, claim4_password_policy mixHash 1 [] 8 smallAlpha [] []
    ['a', 'A', '0', '!', 'a', 'A', '0', '!'] rfl⟩

/-- C5: createPassword fails with a range error — before any seed
derivation, identically for every hash, fuel and matrix — whenever the
length is outside 8–16, the alphabet has fewer than 2 or more than 256
distinct characters, or the alphabet misses one of the four character
classes; and when the validations pass but every one of the 1000 attempts
completes with a candidate failing the complexity policy, it fails with the
generation-exhausted error rather than retrying further. -/
theorem claim5_password_errors (H : List Nat → List Nat) (fuel : Nat)
    (matrix : FloatMatrix) (len : Nat) (A : List Char) (salt info : List Nat) :
    ((len < 8 ∨ 16 < len ∨ A.dedup.length < 2 ∨ 256 < A.dedup.length ∨
        ¬(A.any isLowerChar = true ∧ A.any isUpperChar = true ∧
          A.any isDigitChar = true ∧ A.any isSymbolChar = true)) →
      ∃ msg, msg ∈ [LENGTH_MSG, ALPHA_LEN_MSG, ALPHA_CLASS_MSG] ∧
        ∀ (H' : List Nat → List Nat) (fuel' : Nat) (matrix' : FloatMatrix),
          createPassword H' fuel' matrix' len A salt info = some (.error msg)) ∧
    (∀ seed, 8 ≤ len → len ≤ 16 →
      (A.any isLowerChar = true ∧ A.any isUpperChar = true ∧
        A.any isDigitChar = true ∧ A.any isSymbolChar = true) →
      2 ≤ A.length → A.length ≤ 256 →
      deriveSeed H matrix PURPOSE_PASSWORD salt info = .ok seed →
      (∀ k, k < 1000 → ∃ q,
        attemptPassword H seed A (256 / A.length * A.length) len fuel k [] = some q ∧
        isValidPassword q = false) →
      createPassword H fuel matrix len A salt info = some (.error EXHAUST_MSG)) := by
  constructor
  · intro hbad
    by_cases hL : len < 8 ∨ 16 < len
    · refine ⟨LENGTH_MSG, by simp, ?_⟩
      intro H' fuel' matrix'
      unfold createPassword
      rw [if_pos hL]
    · by_cases hAL : A.length < 2 ∨ 256 < A.length
      · refine ⟨ALPHA_LEN_MSG, by simp, ?_⟩
        intro H' fuel' matrix'
        unfold createPassword
        rw [if_neg hL, if_pos hAL]
      · have hcf : ¬(A.any isLowerChar = true ∧ A.any isUpperChar = true ∧
            A.any isDigitChar = true ∧ A.any isSymbolChar = true) := by
          intro hconj
          have hd2 : 2 ≤ A.dedup.length :=
            classes_give_two_distinct A hconj.1 hconj.2.2.1
          have hdle : A.dedup.length ≤ A.length := dedup_length_le A
          push_neg at hL hAL
          rcases hbad with h | h | h | h | h
          · omega
          · omega
          · omega
          · omega
          · exact h hconj
        refine ⟨ALPHA_CLASS_MSG, by simp, ?_⟩
        intro H' fuel' matrix'
        unfold createPassword
        rw [if_neg hL, if_neg hAL, if_pos hcf]
  · intro seed h8 h16 hconj hA2 hA256 hseed hall
    unfold createPassword
    rw [if_neg (by omega), if_neg (by omega), if_neg (not_not_intro hconj), hseed]
    exact passwordAttempts_exhausted H seed A (256 / A.length * A.length) len fuel
      1000 0 (by simpa using hall)

theorem claim5_witness :
    (∃ msg, msg ∈ [LENGTH_MSG, ALPHA_LEN_MSG, ALPHA_CLASS_MSG] ∧
      ∀ (H' : List Nat → List Nat) (fuel' : Nat) (matrix' : FloatMatrix),
        createPassword H' fuel' matrix' 7 smallAlpha [] [] = some (.error msg)) ∧
    createPassword constHash 1 [] 8 smallAlpha [] [] = some (.error EXHAUST_MSG) :=
  ⟨(claim5_password_errors constHash 1 [] 7 smallAlpha [] []).1 (Or.inl (by omega)),
   (claim5_password_errors constHash 1 [] 8 smallAlpha [] []).2 (List.replicate 32 0)
     (by omega) (by omega) (by decide) (by decide) (by decide) rfl
     (fun k _ => ⟨['a', 'a', 'a', 'a', 'a', 'a', 'a', 'a'], rfl, rfl⟩)⟩

end Deterministic
